import Mathlib

/-!
# Path-Addressed Immutable Document Update Engine — verification development

Shallow embedding of the update engine of this repository:

* `src/utils/updateValueAtPath` (`updateValueAtPath`, `Path`),
* `src/utils/getValueAtPath` (`getValueAtPath`),
* `src/store/useJson.ts` (`updateAtPath` of the document store),
* `src/features/modals/NodeModal/index.tsx` (`coerceLike`, `READ_ONLY_KEYS`,
  the structured-mode save payload of `onSave`).

Values are modelled by `JValue`: maps are insertion-ordered association
lists, sequences are element lists together with their non-index (expando)
string-keyed entries, leaves are text / number / boolean / null, and
`undef` is JavaScript's `undefined` (the explicit "absent" result).
JavaScript numbers are modelled as rationals.

Bracket access `cur[seg]` and bracket assignment `cur[seg] = v` are
modelled on the *own enumerable data entries* of a value — exactly the
entries that object spread `{...x}`, `Object.entries` and
`JSON.stringify` observe.  In particular a text value exposes its
characters at their canonical index keys (they are own enumerable
properties of a string, which is why `{..."ab"}` is `{0:"a",1:"b"}`),
while non-enumerable exotic properties (`length`) and prototype-inherited
members are outside the model.
-/

namespace JsonCrack

/-- A path step: a field name (for maps) or a non-negative integer index
(for sequences).  Mirrors `type Path = (string | number)[]`. -/
inductive Seg where
  | key (s : String)
  | idx (n : Nat)
deriving DecidableEq

/-- A path through a nested document. -/
abbrev Path := List Seg

/-- A JSON-like runtime value.  `arr` carries the sequence elements and the
non-index string-keyed (expando) entries that bracket assignment with a
non-canonical string key creates on a JavaScript array; `undef` is the
explicit absent marker (`undefined`). -/
inductive JValue where
  | null
  | undef
  | bool (b : Bool)
  | num (q : Rat)
  | str (s : String)
  | arr (elems : List JValue) (props : List (String × JValue))
  | obj (fields : List (String × JValue))

mutual
/-- Decidable equality of values (hand-rolled: the nested lists defeat
the deriving handler). -/
def decEqJV : (a b : JValue) → Decidable (a = b)
  | .null, .null => .isTrue rfl
  | .undef, .undef => .isTrue rfl
  | .bool x, .bool y =>
    if h : x = y then .isTrue (by rw [h]) else .isFalse (fun hh => h (JValue.bool.inj hh))
  | .num x, .num y =>
    if h : x = y then .isTrue (by rw [h]) else .isFalse (fun hh => h (JValue.num.inj hh))
  | .str x, .str y =>
    if h : x = y then .isTrue (by rw [h]) else .isFalse (fun hh => h (JValue.str.inj hh))
  | .arr xs ps, .arr ys qs =>
    match decEqJVList xs ys, decEqJVFields ps qs with
    | .isTrue h1, .isTrue h2 => .isTrue (by rw [h1, h2])
    | .isFalse h1, _ => .isFalse (fun hh => h1 (JValue.arr.inj hh).1
      )
    | _, .isFalse h2 => .isFalse (fun hh => h2 (JValue.arr.inj hh).2
      )
  | .obj fs, .obj gs =>
    match decEqJVFields fs gs with
    | .isTrue h1 => .isTrue (by rw [h1])
    | .isFalse h1 => .isFalse (fun hh => h1 (JValue.obj.inj hh))
  | .null, .undef => .isFalse (fun h => nomatch h)
  | .null, .bool _ => .isFalse (fun h => nomatch h)
  | .null, .num _ => .isFalse (fun h => nomatch h)
  | .null, .str _ => .isFalse (fun h => nomatch h)
  | .null, .arr _ _ => .isFalse (fun h => nomatch h)
  | .null, .obj _ => .isFalse (fun h => nomatch h)
  | .undef, .null => .isFalse (fun h => nomatch h)
  | .undef, .bool _ => .isFalse (fun h => nomatch h)
  | .undef, .num _ => .isFalse (fun h => nomatch h)
  | .undef, .str _ => .isFalse (fun h => nomatch h)
  | .undef, .arr _ _ => .isFalse (fun h => nomatch h)
  | .undef, .obj _ => .isFalse (fun h => nomatch h)
  | .bool _, .null => .isFalse (fun h => nomatch h)
  | .bool _, .undef => .isFalse (fun h => nomatch h)
  | .bool _, .num _ => .isFalse (fun h => nomatch h)
  | .bool _, .str _ => .isFalse (fun h => nomatch h)
  | .bool _, .arr _ _ => .isFalse (fun h => nomatch h)
  | .bool _, .obj _ => .isFalse (fun h => nomatch h)
  | .num _, .null => .isFalse (fun h => nomatch h)
  | .num _, .undef => .isFalse (fun h => nomatch h)
  | .num _, .bool _ => .isFalse (fun h => nomatch h)
  | .num _, .str _ => .isFalse (fun h => nomatch h)
  | .num _, .arr _ _ => .isFalse (fun h => nomatch h)
  | .num _, .obj _ => .isFalse (fun h => nomatch h)
  | .str _, .null => .isFalse (fun h => nomatch h)
  | .str _, .undef => .isFalse (fun h => nomatch h)
  | .str _, .bool _ => .isFalse (fun h => nomatch h)
  | .str _, .num _ => .isFalse (fun h => nomatch h)
  | .str _, .arr _ _ => .isFalse (fun h => nomatch h)
  | .str _, .obj _ => .isFalse (fun h => nomatch h)
  | .arr _ _, .null => .isFalse (fun h => nomatch h)
  | .arr _ _, .undef => .isFalse (fun h => nomatch h)
  | .arr _ _, .bool _ => .isFalse (fun h => nomatch h)
  | .arr _ _, .num _ => .isFalse (fun h => nomatch h)
  | .arr _ _, .str _ => .isFalse (fun h => nomatch h)
  | .arr _ _, .obj _ => .isFalse (fun h => nomatch h)
  | .obj _, .null => .isFalse (fun h => nomatch h)
  | .obj _, .undef => .isFalse (fun h => nomatch h)
  | .obj _, .bool _ => .isFalse (fun h => nomatch h)
  | .obj _, .num _ => .isFalse (fun h => nomatch h)
  | .obj _, .str _ => .isFalse (fun h => nomatch h)
  | .obj _, .arr _ _ => .isFalse (fun h => nomatch h)

/-- Decidable equality of element lists. -/
def decEqJVList : (a b : List JValue) → Decidable (a = b)
  | [], [] => .isTrue rfl
  | [], _ :: _ => .isFalse (fun h => nomatch h)
  | _ :: _, [] => .isFalse (fun h => nomatch h)
  | x :: xs, y :: ys =>
    match decEqJV x y, decEqJVList xs ys with
    | .isTrue h1, .isTrue h2 => .isTrue (by rw [h1, h2])
    | .isFalse h1, _ => .isFalse (fun hh => h1 (List.cons.inj hh).1
      )
    | _, .isFalse h2 => .isFalse (fun hh => h2 (List.cons.inj hh).2
      )

/-- Decidable equality of keyed entry lists. -/
def decEqJVFields : (a b : List (String × JValue)) → Decidable (a = b)
  | [], [] => .isTrue rfl
  | [], _ :: _ => .isFalse (fun h => nomatch h)
  | _ :: _, [] => .isFalse (fun h => nomatch h)
  | (k, x) :: xs, (l, y) :: ys =>
    match decEq k l, decEqJV x y, decEqJVFields xs ys with
    | .isTrue h0, .isTrue h1, .isTrue h2 => .isTrue (by rw [h0, h1, h2])
    | .isFalse h0, _, _ => .isFalse (fun hh => h0 (congrArg Prod.fst (List.cons.inj hh).1
      ))
    | _, .isFalse h1, _ => .isFalse (fun hh => h1 (congrArg Prod.snd (List.cons.inj hh).1
      ))
    | _, _, .isFalse h2 => .isFalse (fun hh => h2 (List.cons.inj hh).2
      )
end

instance : DecidableEq JValue := decEqJV

namespace JValue

/-- First-match lookup in an insertion-ordered association list — own
property read on a map value. -/
def lookupStr : List (String × JValue) → String → Option JValue
  | [], _ => none
  | (k, v) :: rest, s => if k = s then some v else lookupStr rest s

/-- Own property write on a map value: an existing key is overwritten in
place, a new key is appended (JavaScript insertion order). -/
def setStr : List (String × JValue) → String → JValue → List (String × JValue)
  | [], s, v => [(s, v)]
  | (k, w) :: rest, s, v =>
    if k = s then (s, v) :: rest else (k, w) :: setStr rest s v

/-- Element write on a sequence: in-range indices are overwritten; writing
past the end pads with `undef` holes (JavaScript hole semantics) before
appending the value. -/
def setElem (xs : List JValue) (n : Nat) (v : JValue) : List JValue :=
  if n < xs.length then xs.set n v
  else xs ++ List.replicate (n - xs.length) JValue.undef ++ [v]

end JValue

/-- The property key a step denotes: a numeric step is coerced to its
decimal string, as JavaScript property access does. -/
def segStr : Seg → String
  | .key s => s
  | .idx n => toString n

/-- The decimal digit a character denotes, if any. -/
def digitVal (c : Char) : Option Nat :=
  let d := c.toNat
  if 48 ≤ d ∧ d ≤ 57 then some (d - 48) else none

/-- The natural number a non-empty all-digit character list denotes. -/
def natOfDigits : List Char → Option Nat
  | [] => none
  | cs => cs.foldl (fun acc c => match acc, digitVal c with
      | some a, some d => some (a * 10 + d)
      | _, _ => none) (some 0)

/-- Canonical array-index reading of a string key: `"7"` is index `7`,
while `"07"`, `"x"`, … are plain string keys. -/
def canonIdx (s : String) : Option Nat :=
  match natOfDigits s.toList with
  | some n => if toString n = s then some n else none
  | none => none

/-- The own enumerable entries of a text value: one single-character text
per position, keyed by the decimal index (this is what `{..."ab"}` and
bracket reads on a string observe). -/
def strCharEntriesFrom : Nat → List Char → List (String × JValue)
  | _, [] => []
  | i, c :: cs => (toString i, .str (String.singleton c)) :: strCharEntriesFrom (i + 1) cs

/-- Own enumerable entries of the text `s`, starting at index `0`. -/
def strCharEntries (s : String) : List (String × JValue) :=
  strCharEntriesFrom 0 s.toList

/-- Bracket read `cur[seg]`: own enumerable data entry of `cur` at the
step, `undef` when absent.  Maps look the key up (numeric steps read the
decimal key); sequences read elements at canonical indices and expando
entries otherwise; text reads its character entries; other leaves have no
entries. -/
def jsGet : JValue → Seg → JValue
  | .obj fs, seg => (JValue.lookupStr fs (segStr seg)).getD .undef
  | .arr xs _, .idx n => (xs.get? n).getD .undef
  | .arr xs ps, .key s =>
    match canonIdx s with
    | some n => (xs.get? n).getD .undef
    | none => (JValue.lookupStr ps s).getD .undef
  | .str s, seg => (JValue.lookupStr (strCharEntries s) (segStr seg)).getD .undef
  | _, _ => (.undef)

/-- Optional-chaining read `src?.[seg]`: `undefined` when `src == null`
(which catches both `null` and `undefined`), a plain bracket read
otherwise. -/
def jsGetOpt : JValue → Seg → JValue
  | .null, _ => .undef
  | .undef, _ => .undef
  | v, seg => jsGet v seg

/-- Bracket assignment `cur[seg] = v` on a container.  Maps write the
(string-coerced) key; sequences write elements at canonical indices
(padding past-the-end writes with `undef` holes) and expando entries at
non-canonical string keys.  Assignment to a non-container leaf is a
silent no-op, as in non-strict JavaScript; the engine only ever assigns
into freshly made container clones. -/
def jsSet : JValue → Seg → JValue → JValue
  | .obj fs, seg, v => .obj (JValue.setStr fs (segStr seg) v)
  | .arr xs ps, .idx n, v => .arr (JValue.setElem xs n v) ps
  | .arr xs ps, .key s, v =>
    match canonIdx s with
    | some n => .arr (JValue.setElem xs n v) ps
    | none => .arr xs (JValue.setStr ps s v)
  | w, _, _ => w

/-- The root shallow clone of `updateValueAtPath`:
`Array.isArray(root) ? [...root] : { ...root }`.  Array spread keeps the
elements and drops expando entries; object spread keeps the fields; spread
of a text value copies its character entries (own enumerable properties);
spread of any other leaf (number, boolean, `null`, `undefined`) is the
empty map. -/
def cloneRoot : JValue → JValue
  | .arr xs _ => .arr xs []
  | .obj fs => .obj fs
  | .str s => .obj (strCharEntries s)
  | _ => .obj []

/-- The intermediate shallow clone of `updateValueAtPath`:
`Array.isArray(childSrc) ? [...childSrc] :
 (childSrc && typeof childSrc === "object") ? { ...childSrc } : {}`.
Unlike the root clone, every non-container child — text included — clones
to the empty map, because of the explicit `typeof` guard. -/
def cloneChild : JValue → JValue
  | .arr xs _ => .arr xs []
  | .obj fs => .obj fs
  | _ => .obj []

/-- The clone-and-descend loop of `updateValueAtPath`, entered with the
current source node `src` and the remaining path.  Each iteration reads
`childSrc = src?.[k]` from the original tree, attaches a shallow clone of
it (`cloneChild`) at `k` in the chain under construction, and descends;
the final step assigns `next`.  The `[]` case is unreachable from
`updateValueAtPath`. -/
def updateSubtree (src : JValue) (path : Path) (next : JValue) : JValue :=
  match path with
  | [] => next
  | [k] => jsSet (cloneChild src) k next
  | k :: rest => jsSet (cloneChild src) k (updateSubtree (jsGetOpt src k) rest next)

/-- `updateValueAtPath(root, path, next)` for a well-formed (array) path:
an empty path replaces the whole document; otherwise the root is shallow
cloned and the clone-and-descend loop runs, so the entry at the first step
of the clone is the rebuilt subtree. -/
def updateValueAtPath (root : JValue) (path : Path) (next : JValue) : JValue :=
  match path with
  | [] => next
  | [k] => jsSet (cloneRoot root) k next
  | k :: rest => jsSet (cloneRoot root) k (updateSubtree (jsGetOpt root k) rest next)

/-- The `path` argument as the source receives it: possibly not an array
at all (`!Array.isArray(path)`). -/
inductive PathArg where
  | notArray
  | path (p : Path)
deriving DecidableEq

/-- `updateValueAtPath` including the malformed-path guard
`if (!Array.isArray(path) || path.length === 0) return next`. -/
def updateValueAtPathArg (root : JValue) (path : PathArg) (next : JValue) : JValue :=
  match path with
  | .notArray => next
  | .path p => updateValueAtPath root p next

/-- `getValueAtPath(root, path)`: walk the path; whenever the current
value `== null` (i.e. is `null` or `undefined`) with steps remaining,
short-circuit to `undefined`; otherwise descend with a bracket read. -/
def getValueAtPath (root : JValue) (path : Path) : JValue :=
  match path with
  | [] => root
  | seg :: rest =>
    match root with
    | .null => .undef
    | .undef => .undef
    | v => getValueAtPath (jsGet v seg) rest

/-- A container in the document sense: a sequence or a map. -/
def isContainer : JValue → Bool
  | .arr _ _ => true
  | .obj _ => true
  | _ => false

/-- A text leaf. -/
def isText : JValue → Bool
  | .str _ => true
  | _ => false

mutual
/-- A document value: what deserializing a JSON text can produce — no
`undef` anywhere and no expando entries on sequences. -/
def isDocument : JValue → Bool
  | .null => true
  | .undef => false
  | .bool _ => true
  | .num _ => true
  | .str _ => true
  | .arr xs ps => ps.isEmpty && isDocumentList xs
  | .obj fs => isDocumentFields fs

/-- Every element is a document value. -/
def isDocumentList : List JValue → Bool
  | [] => true
  | v :: vs => isDocument v && isDocumentList vs

/-- Every field value is a document value. -/
def isDocumentFields : List (String × JValue) → Bool
  | [] => true
  | (_, v) :: fs => isDocument v && isDocumentFields fs
end

/-! ## The field editor: `coerceLike` and the structured-mode save

From `src/features/modals/NodeModal/index.tsx`. -/

/-- JavaScript whitespace as trimmed by `String.prototype.trim` and by
`Number()`: space, tab, line feed, vertical tab, form feed, carriage
return, no-break space, BOM. -/
def jsWhitespaceChar (c : Char) : Bool :=
  let d := c.toNat
  d = 32 || d = 9 || d = 10 || d = 11 || d = 12 || d = 13 || d = 160 || d = 65279

/-- Model of `input.trim()`. -/
def jsTrim (s : String) : String :=
  String.mk ((((s.toList.dropWhile jsWhitespaceChar).reverse.dropWhile jsWhitespaceChar).reverse))

/-- ASCII lower-casing of one character. -/
def lowerChar (c : Char) : Char :=
  let d := c.toNat
  if 65 ≤ d ∧ d ≤ 90 then Char.ofNat (d + 32) else c

/-- Model of `input.toLowerCase()` (the inputs the editor compares —
`"true"`, `"false"`, `"null"` — are ASCII). -/
def jsToLower (s : String) : String :=
  String.mk (s.toList.map lowerChar)

/-- Longest leading run of decimal digits, as digit values, plus the rest. -/
def takeDigits : List Char → List Nat × List Char
  | [] => ([], [])
  | c :: cs =>
    match digitVal c with
    | some d => let (ds, rest) := takeDigits cs; (d :: ds, rest)
    | none => ([], c :: cs)

/-- The natural number a digit-value list denotes. -/
def digitsToNat (ds : List Nat) : Nat :=
  ds.foldl (fun a d => a * 10 + d) 0

/-- The rational `sign · (int.frac) · 10^exp`, built with one `mkRat`. -/
def decimalRat (sign : Int) (intDs fracDs : List Nat) (exp : Int) : Rat :=
  let mantissa : Int := sign * ((digitsToNat intDs * 10 ^ fracDs.length + digitsToNat fracDs : Nat) : Int)
  if 0 ≤ exp then mkRat (mantissa * (10 ^ exp.toNat : Nat)) (10 ^ fracDs.length)
  else mkRat mantissa (10 ^ fracDs.length * 10 ^ (-exp).toNat)

/-- The optional exponent part (`e`/`E`, optional sign, digits) followed by
the end of the input; `none` when the leftover input is not a well-formed
exponent. -/
def numTail (sign : Int) (intDs fracDs : List Nat) : List Char → Option Rat
  | [] => some (decimalRat sign intDs fracDs 0)
  | c :: t =>
    if c = 'e' ∨ c = 'E' then
      let (esign, t2) : Int × List Char :=
        match t with
        | '+' :: u => (1, u)
        | '-' :: u => (-1, u)
        | _ => (1, t)
      match takeDigits t2 with
      | ([], _) => none
      | (eds, t3) =>
        if t3.isEmpty then some (decimalRat sign intDs fracDs (esign * (digitsToNat eds : Nat))) else none
    else none

/-- The signless decimal literal (`digits`, `digits.digits?`, `.digits`,
each with an optional exponent). -/
def numMagnitude (sign : Int) (cs : List Char) : Option Rat :=
  let (intDs, r1) := takeDigits cs
  match r1 with
  | '.' :: t =>
    let (fracDs, r2) := takeDigits t
    if intDs.isEmpty && fracDs.isEmpty then none else numTail sign intDs fracDs r2
  | _ => if intDs.isEmpty then none else numTail sign intDs [] r1

/-- Model of the `Number(input)` builtin on its decimal fragment: trim
JavaScript whitespace; the empty remainder converts to `0`; otherwise an
optionally signed decimal literal with optional fraction and exponent;
`none` stands for `NaN`.  (The non-decimal spellings `Number` also
accepts — hex/octal/binary literals and `Infinity` — are outside the
rational model.) -/
def jsNumber (input : String) : Option Rat :=
  match (jsTrim input).toList with
  | [] => some 0
  | '+' :: t => numMagnitude 1 t
  | '-' :: t => numMagnitude (-1) t
  | cs => numMagnitude 1 cs

/-- `coerceLike(orig, input)` of the node modal: convert the draft text
back toward the runtime type of the original value.  Numbers parse the
text (`Number`), keeping the original on NaN; booleans accept the trimmed
lower-cased literals `true`/`false`, keeping the original otherwise;
`null` accepts the literal `null`, otherwise the raw text becomes the
value; every other original takes the raw text. -/
def coerceLike (orig : JValue) (input : String) : JValue :=
  match orig with
  | .num n =>
    match jsNumber input with
    | some m => .num m
    | none => .num n
  | .bool b =>
    let t := jsToLower (jsTrim input)
    if t = "true" then .bool true else if t = "false" then .bool false else .bool b
  | .null =>
    let t := jsToLower (jsTrim input)
    if t = "null" then .null else .str input
  | _ => .str input

/-- `READ_ONLY_KEYS = new Set(["color"])`: keys the modal never edits. -/
def READ_ONLY_KEYS (k : String) : Bool := k = "color"

/-- `orig === null || ["string", "number", "boolean"].includes(typeof orig)`:
the originals the structured editor may overwrite. -/
def isPrimitiveField : JValue → Bool
  | .null => true
  | .str _ => true
  | .num _ => true
  | .bool _ => true
  | _ => false

/-- The structured-mode save of `onSave`: start from a shallow copy of the
current sub-value's fields, then for each draft entry in order, skip
read-only keys, and overwrite primitive-valued originals with the coerced
draft. -/
def onSaveFields (current : List (String × JValue)) (drafts : List (String × String)) :
    List (String × JValue) :=
  drafts.foldl
    (fun acc kd =>
      if READ_ONLY_KEYS kd.1 then acc
      else
        let orig := (JValue.lookupStr current kd.1).getD .undef
        if isPrimitiveField orig then JValue.setStr acc kd.1 (coerceLike orig kd.2) else acc)
    current

/-- The payload the structured-mode save commits through `updateAtPath`. -/
def onSaveStructuredPayload (current : List (String × JValue))
    (drafts : List (String × String)) : JValue :=
  .obj (onSaveFields current drafts)

mutual
/-- No sequence anywhere in the value carries expando entries.  Weaker
than `isDocument` (it allows `undef`); it is the invariant the frame
lemmas thread through the clone chain. -/
def propsFree : JValue → Bool
  | .arr xs ps => ps.isEmpty && propsFreeList xs
  | .obj fs => propsFreeFields fs
  | _ => true

/-- Every element is `propsFree`. -/
def propsFreeList : List JValue → Bool
  | [] => true
  | v :: vs => propsFree v && propsFreeList vs

/-- Every field value is `propsFree`. -/
def propsFreeFields : List (String × JValue) → Bool
  | [] => true
  | (_, v) :: fs => propsFree v && propsFreeFields fs
end

/-! ## The document store (`src/store/useJson.ts`)

The store holds the current document in serialized form plus a loading
flag; `updateAtPath` deserializes it (model of the `JSON.parse` builtin),
applies `updateValueAtPath`, re-serializes (model of
`JSON.stringify(·, null, 2)`) and commits through `setJson`, which
notifies the graph-rebuild and file-mirror collaborators. -/

/-- JSON insignificant whitespace: space, tab, line feed, carriage return. -/
def skipWs : List Char → List Char
  | [] => []
  | c :: cs =>
    let d := c.toNat
    if d = 32 || d = 9 || d = 10 || d = 13 then skipWs cs else c :: cs

/-- The hexadecimal digit a character denotes, if any. -/
def hexVal (c : Char) : Option Nat :=
  let d := c.toNat
  if 48 ≤ d ∧ d ≤ 57 then some (d - 48)
  else if 97 ≤ d ∧ d ≤ 102 then some (d - 87)
  else if 65 ≤ d ∧ d ≤ 70 then some (d - 55)
  else none

/-- Consume the expected literal characters. -/
def stripLit : List Char → List Char → Option (List Char)
  | [], cs => some cs
  | _ :: _, [] => none
  | l :: ls, c :: cs => if c = l then stripLit ls cs else none

/-- JSON string-literal body, after the opening quote: plain characters up
to the closing quote, with the standard escapes (`\" \\ \/ \b \f \n \r \t`
and `\uXXXX`); raw control characters are rejected.  Fuelled by the input
length. -/
def parseJStringBody : Nat → List Char → Option (List Char × List Char)
  | 0, _ => none
  | _, [] => none
  | fuel + 1, c :: cs =>
    if c = '"' then some ([], cs)
    else if c = '\\' then
      match cs with
      | [] => none
      | e :: cs2 =>
        let esc : Option (Char × List Char) :=
          if e = '"' then some ('"', cs2)
          else if e = '\\' then some ('\\', cs2)
          else if e = '/' then some ('/', cs2)
          else if e = 'b' then some (Char.ofNat 8, cs2)
          else if e = 'f' then some (Char.ofNat 12, cs2)
          else if e = 'n' then some ('\n', cs2)
          else if e = 'r' then some ('\r', cs2)
          else if e = 't' then some ('\t', cs2)
          else if e = 'u' then
            match cs2 with
            | h1 :: h2 :: h3 :: h4 :: cs3 =>
              match hexVal h1, hexVal h2, hexVal h3, hexVal h4 with
              | some a, some b, some c3, some d =>
                some (Char.ofNat (((a * 16 + b) * 16 + c3) * 16 + d), cs3)
              | _, _, _, _ => none
            | _ => none
          else none
        match esc with
        | some (ch, rest) =>
          match parseJStringBody fuel rest with
          | some (s, r) => some (ch :: s, r)
          | none => none
        | none => none
    else if c.toNat < 32 then none
    else
      match parseJStringBody fuel cs with
      | some (s, r) => some (c :: s, r)
      | none => none

/-- JSON number: optional minus, integer part (`0` or a nonzero-led digit
run), optional fraction (dot and at least one digit), optional exponent. -/
def parseJNumber (cs : List Char) : Option (Rat × List Char) :=
  let (sign, cs1) : Int × List Char :=
    match cs with
    | '-' :: t => (-1, t)
    | _ => (1, cs)
  match cs1 with
  | '0' :: t => parseJNumberFrac sign [0] t
  | c :: t =>
    match digitVal c with
    | some d =>
      let (ds, r) := takeDigits t
      parseJNumberFrac sign (d :: ds) r
    | none => none
  | [] => none
where
  /-- Fraction and exponent of a JSON number. -/
  parseJNumberFrac (sign : Int) (intDs : List Nat) : List Char → Option (Rat × List Char)
    | '.' :: t =>
      match takeDigits t with
      | ([], _) => none
      | (fracDs, r) => parseJNumberExp sign intDs fracDs r
    | r => parseJNumberExp sign intDs [] r
  /-- Exponent of a JSON number. -/
  parseJNumberExp (sign : Int) (intDs fracDs : List Nat) : List Char → Option (Rat × List Char)
    | c :: t =>
      if c = 'e' ∨ c = 'E' then
        let (esign, t2) : Int × List Char :=
          match t with
          | '+' :: u => (1, u)
          | '-' :: u => (-1, u)
          | _ => (1, t)
        match takeDigits t2 with
        | ([], _) => none
        | (eds, t3) => some (decimalRat sign intDs fracDs (esign * (digitsToNat eds : Nat)), t3)
      else some (decimalRat sign intDs fracDs 0, c :: t)
    | [] => some (decimalRat sign intDs fracDs 0, [])

mutual
/-- One JSON value, leading whitespace already skipped.  Fuelled; every
recursive call consumes at least one character first, so fuel `length + 1`
is never the reason a well-formed input fails. -/
def parseJValue : Nat → List Char → Option (JValue × List Char)
  | 0, _ => none
  | _, [] => none
  | fuel + 1, c :: rest =>
    if c = '"' then
      match parseJStringBody (rest.length + 1) rest with
      | some (s, r) => some (.str (String.mk s), r)
      | none => none
    else if c = '{' then
      match skipWs rest with
      | '}' :: r => some (.obj [], r)
      | r =>
        match parseJMembers fuel r with
        | some (raw, r2) =>
          some (.obj (raw.foldl (fun acc kv => JValue.setStr acc kv.1 kv.2) []), r2)
        | none => none
    else if c = '[' then
      match skipWs rest with
      | ']' :: r => some (.arr [] [], r)
      | r =>
        match parseJElems fuel r with
        | some (vs, r2) => some (.arr vs [], r2)
        | none => none
    else if c = 't' then
      match stripLit ['r', 'u', 'e'] rest with
      | some r => some (.bool true, r)
      | none => none
    else if c = 'f' then
      match stripLit ['a', 'l', 's', 'e'] rest with
      | some r => some (.bool false, r)
      | none => none
    else if c = 'n' then
      match stripLit ['u', 'l', 'l'] rest with
      | some r => some (.null, r)
      | none => none
    else
      match parseJNumber (c :: rest) with
      | some (q, r) => some (.num q, r)
      | none => none

/-- Members of a JSON object, after the opening brace and any whitespace,
for a non-empty member list.  Duplicate keys are resolved by the caller
(last value wins, first position kept), as `JSON.parse` does. -/
def parseJMembers : Nat → List Char → Option (List (String × JValue) × List Char)
  | 0, _ => none
  | fuel + 1, cs =>
    match cs with
    | '"' :: t =>
      match parseJStringBody (t.length + 1) t with
      | some (k, r1) =>
        match skipWs r1 with
        | ':' :: r2 =>
          match parseJValue fuel (skipWs r2) with
          | some (v, r3) =>
            match skipWs r3 with
            | ',' :: r4 =>
              match parseJMembers fuel (skipWs r4) with
              | some (fs, r5) => some ((String.mk k, v) :: fs, r5)
              | none => none
            | '}' :: r4 => some ([(String.mk k, v)], r4)
            | _ => none
          | none => none
        | _ => none
      | none => none
    | _ => none

/-- Elements of a JSON array, after the opening bracket and any
whitespace, for a non-empty element list. -/
def parseJElems : Nat → List Char → Option (List JValue × List Char)
  | 0, _ => none
  | fuel + 1, cs =>
    match parseJValue fuel (skipWs cs) with
    | some (v, r1) =>
      match skipWs r1 with
      | ',' :: r2 =>
        match parseJElems fuel (skipWs r2) with
        | some (vs, r3) => some (v :: vs, r3)
        | none => none
      | ']' :: r2 => some ([v], r2)
      | _ => none
    | none => none
end

/-- Model of the `JSON.parse` builtin: one JSON value surrounded by
whitespace, nothing left over; `none` models the thrown `SyntaxError`. -/
def jsonParse (s : String) : Option JValue :=
  match parseJValue (s.length + 1) (skipWs s.toList) with
  | some (v, rest) => if (skipWs rest).isEmpty then some v else none
  | none => none

/-- The least exponent `k` (within fuel) with `den ∣ 10^k`, searched as
`findPow10 den fuel k (10^k)`. -/
def findPow10 (den : Nat) : Nat → Nat → Nat → Option Nat
  | 0, _, _ => none
  | fuel + 1, k, pw => if pw % den = 0 then some k else findPow10 den fuel (k + 1) (pw * 10)

/-- Decimal rendering of a rational whose denominator divides a power of
ten (every number `jsonParse` produces is of this shape); other
denominators fall back to a fraction spelling that only a non-decimal
rational could reach. -/
def ratToString (q : Rat) : String :=
  if q.den = 1 then toString q.num
  else
    match findPow10 q.den 512 0 1 with
    | some k =>
      let m := q.num * ((10 ^ k) / q.den : Nat)
      let sign := if m < 0 then "-" else ""
      let a := m.natAbs
      sign ++ toString (a / 10 ^ k) ++ "." ++
        (String.mk (List.replicate (k - (toString (a % 10 ^ k)).length) '0')) ++
        toString (a % 10 ^ k)
    | none => toString q.num ++ "/" ++ toString q.den

/-- JSON string-literal escaping of one character. -/
def escapeChar (c : Char) : List Char :=
  if c = '"' then ['\\', '"']
  else if c = '\\' then ['\\', '\\']
  else if c = '\n' then ['\\', 'n']
  else if c = '\r' then ['\\', 'r']
  else if c = '\t' then ['\\', 't']
  else if c.toNat = 8 then ['\\', 'b']
  else if c.toNat = 12 then ['\\', 'f']
  else if c.toNat < 32 then
    let lo := c.toNat % 16
    let hi := c.toNat / 16
    let hexDigit := fun (d : Nat) => if d < 10 then Char.ofNat (48 + d) else Char.ofNat (87 + d)
    ['\\', 'u', '0', '0', hexDigit hi, hexDigit lo]
  else [c]

/-- JSON string-literal rendering. -/
def quoteString (s : String) : String :=
  "\"" ++ String.mk (s.toList.foldr (fun c acc => escapeChar c ++ acc) []) ++ "\""

mutual
/-- Model of `JSON.stringify(v, null, 2)` at nesting depth `depth`:
two-space indentation per level, entries on their own lines.  `undef`
elements of a sequence render as `null` and `undef` fields of a map are
dropped, as `JSON.stringify` does; a top-level `undef` (where the builtin
produces no string at all) renders as `"null"`, a corner reachable only by
replacing the whole document with `undefined`. -/
def stringifyAt : Nat → JValue → String
  | _, .null => "null"
  | _, .undef => "null"
  | _, .bool b => if b then "true" else "false"
  | _, .num q => ratToString q
  | _, .str s => quoteString s
  | depth, .arr xs _ =>
    match xs with
    | [] => "[]"
    | _ =>
      "[\n" ++ stringifyElems (depth + 1) xs ++ "\n" ++
        String.mk (List.replicate (2 * depth) ' ') ++ "]"
  | depth, .obj fs =>
    match stringifyFields (depth + 1) fs with
    | none => "{}"
    | some body =>
      "\x7b\n" ++ body ++ "\n" ++ String.mk (List.replicate (2 * depth) ' ') ++ "\x7d"

/-- Array elements, one per line, comma-separated. -/
def stringifyElems : Nat → List JValue → String
  | _, [] => ""
  | depth, [v] => String.mk (List.replicate (2 * depth) ' ') ++ stringifyAt depth v
  | depth, v :: vs =>
    String.mk (List.replicate (2 * depth) ' ') ++ stringifyAt depth v ++ ",\n" ++
      stringifyElems depth vs

/-- Object entries, one per line, comma-separated; `undef`-valued entries
are dropped; `none` when every entry is dropped. -/
def stringifyFields : Nat → List (String × JValue) → Option String
  | _, [] => none
  | depth, (k, v) :: fs =>
    match v with
    | .undef => stringifyFields depth fs
    | _ =>
      let line := String.mk (List.replicate (2 * depth) ' ') ++ quoteString k ++ ": " ++
        stringifyAt depth v
      match stringifyFields depth fs with
      | none => some line
      | some body => some (line ++ ",\n" ++ body)
end

/-- Model of `JSON.stringify(v, null, 2)`. -/
def jsonStringify (v : JValue) : String := stringifyAt 0 v

/-- The document store's state: the serialized current document and the
loading flag. -/
structure StoreState where
  json : String
  loading : Bool
deriving DecidableEq

/-- `initialStates`: the empty-object document, loading set. -/
def initialStates : StoreState := { json := "{}", loading := true }

/-- A synchronous notification to an external collaborator. -/
inductive Notice where
  | setGraph (s : String)
  | clearGraph
  | setContents (contents : String) (skipUpdate : Bool)
deriving DecidableEq

/-- `setJson`: store the text, clear `loading`, then notify the
graph-rebuild collaborator and the file mirror (tagged `skipUpdate`). -/
def setJson (s : String) (_st : StoreState) : StoreState × List Notice :=
  ({ json := s, loading := false }, [.setGraph s, .setContents s true])

/-- `clear`: empty the stored text, clear `loading`, notify both
collaborators to reset. -/
def clear (_st : StoreState) : StoreState × List Notice :=
  ({ json := "", loading := false }, [.clearGraph, .setContents "" true])

/-- `updateAtPath(path, next)`: read the current text (defaulting the
falsy empty string to `"{}"`), deserialize it — bailing out with no state
change and no notification on failure — then apply `updateValueAtPath`,
re-serialize and commit through `setJson`. -/
def updateAtPath (path : Path) (next : JValue) (st : StoreState) : StoreState × List Notice :=
  let current := if st.json = "" then "{}" else st.json
  match jsonParse current with
  | none => (st, [])
  | some doc => setJson (jsonStringify (updateValueAtPath doc path next)) st

/-- A sequence value. -/
def isArr : JValue → Bool
  | .arr _ _ => true
  | _ => false

/-- A map value. -/
def isObj : JValue → Bool
  | .obj _ => true
  | _ => false

/-- A non-container, non-text value: number, boolean, `null` or absent. -/
def isLeafNonText : JValue → Bool
  | .null => true
  | .undef => true
  | .num _ => true
  | .bool _ => true
  | _ => false

/-! ## Lemmas about the association-list and element primitives -/

namespace JValue

theorem lookupStr_setStr_same (fs : List (String × JValue)) (s : String) (v : JValue) :
    lookupStr (setStr fs s v) s = some v := by
  induction fs with
  | nil => simp [setStr, lookupStr]
  | cons kv rest ih =>
    obtain ⟨k, w⟩ := kv
    by_cases h : k = s
    · simp [setStr, lookupStr, h]
    · simp [setStr, lookupStr, h, ih]

theorem lookupStr_setStr_other (fs : List (String × JValue)) (s s' : String) (v : JValue)
    (h : s' ≠ s) : lookupStr (setStr fs s v) s' = lookupStr fs s' := by
  have h2 : ¬ (s = s') := fun hh => h hh.symm
  induction fs with
  | nil => simp [setStr, lookupStr, h2]
  | cons kv rest ih =>
    obtain ⟨k, w⟩ := kv
    by_cases hk : k = s
    · subst hk
      simp [setStr, lookupStr, h2]
    · by_cases hk' : k = s'
      · subst hk'
        simp [setStr, lookupStr, hk]
      · simp [setStr, lookupStr, hk, hk', ih]

theorem setElem_get?_same (xs : List JValue) (n : Nat) (v : JValue) :
    (setElem xs n v).get? n = some v := by
  unfold setElem
  by_cases h : n < xs.length
  · simp only [h, if_pos]
    exact List.get?_set_eq_of_lt v h
  · simp only [h, if_neg, not_false_iff]
    rw [List.append_assoc, List.get?_append_right (by omega)]
    rw [List.get?_append_right (by simp)]
    simp only [List.length_replicate]
    have : n - xs.length - (n - xs.length) = 0 := by omega
    simp [this]

theorem setElem_get?_other (xs : List JValue) (n m : Nat) (v : JValue) (h : m ≠ n) :
    ((setElem xs n v).get? m).getD .undef = (xs.get? m).getD .undef := by
  unfold setElem
  by_cases hlt : n < xs.length
  · simp only [hlt, if_pos]
    rw [List.get?_set_ne v xs (fun hh => h hh.symm)]
  · simp only [hlt, if_neg, not_false_iff]
    by_cases hm : m < xs.length
    · rw [List.append_assoc, List.get?_append hm]
    · have hmn : xs.get? m = none := List.get?_eq_none.2 (by omega)
      rw [hmn, List.append_assoc, List.get?_append_right (by omega)]
      by_cases hmid : m - xs.length < n - xs.length
      · rw [List.get?_append (by simpa using hmid)]
        rw [List.get?_eq_getElem?, List.getElem?_replicate]
        simp [hmid]
      · rw [List.get?_append_right (by simpa using hmid)]
        simp only [List.length_replicate]
        have : xs.length + (n - xs.length) < m := by omega
        have h2 : m - xs.length - (n - xs.length) ≠ 0 := by omega
        cases hk : m - xs.length - (n - xs.length) with
        | zero => exact absurd hk h2
        | succ k => simp [List.get?]

theorem setElem_getElem?_same (xs : List JValue) (n : Nat) (v : JValue) :
    (setElem xs n v)[n]? = some v := by
  rw [← List.get?_eq_getElem?]
  exact setElem_get?_same xs n v

theorem setElem_getElem?_other (xs : List JValue) (n m : Nat) (v : JValue) (h : m ≠ n) :
    ((setElem xs n v)[m]?).getD .undef = (xs[m]?).getD .undef := by
  rw [← List.get?_eq_getElem?, ← List.get?_eq_getElem?]
  exact setElem_get?_other xs n m v h

end JValue

/-! ## Lemmas about bracket access on containers -/

theorem canonIdx_toString (s : String) (n : Nat) (h : canonIdx s = some n) : toString n = s := by
  unfold canonIdx at h
  cases hnat : natOfDigits s.toList with
  | none => rw [hnat] at h; exact absurd h (by simp)
  | some m =>
    rw [hnat] at h
    by_cases he : toString m = s
    · simp [he] at h
      rw [← h]
      exact he
    · simp [he] at h

theorem jsGetOpt_eq_jsGet (v : JValue) (k : Seg) : jsGetOpt v k = jsGet v k := by
  cases v <;> rfl

theorem isContainer_cloneRoot (v : JValue) : isContainer (cloneRoot v) = true := by
  cases v <;> rfl

theorem isContainer_cloneChild (v : JValue) : isContainer (cloneChild v) = true := by
  cases v <;> rfl

theorem isContainer_jsSet (c : JValue) (k : Seg) (v : JValue) (h : isContainer c = true) :
    isContainer (jsSet c k v) = true := by
  cases c with
  | arr xs ps =>
    cases k with
    | key s =>
      simp only [jsSet]
      cases hc : canonIdx s <;> simp [hc, isContainer]
    | idx n => rfl
  | obj fs => rfl
  | null => exact absurd h (by simp [isContainer])
  | undef => exact absurd h (by simp [isContainer])
  | bool b => exact absurd h (by simp [isContainer])
  | num q => exact absurd h (by simp [isContainer])
  | str s => exact absurd h (by simp [isContainer])

theorem jsGet_jsSet_same (c : JValue) (k : Seg) (v : JValue) (h : isContainer c = true) :
    jsGet (jsSet c k v) k = v := by
  cases c with
  | obj fs =>
    simp [jsSet, jsGet, JValue.lookupStr_setStr_same]
  | arr xs ps =>
    cases k with
    | idx n => simp [jsSet, jsGet, JValue.setElem_getElem?_same]
    | key s =>
      cases hc : canonIdx s with
      | some m => simp [jsSet, jsGet, hc, JValue.setElem_getElem?_same]
      | none => simp [jsSet, jsGet, hc, JValue.lookupStr_setStr_same]
  | null => exact absurd h (by simp [isContainer])
  | undef => exact absurd h (by simp [isContainer])
  | bool b => exact absurd h (by simp [isContainer])
  | num q => exact absurd h (by simp [isContainer])
  | str s => exact absurd h (by simp [isContainer])

theorem jsGet_jsSet_other (c : JValue) (k k' : Seg) (v : JValue) (h : isContainer c = true)
    (hne : segStr k' ≠ segStr k) : jsGet (jsSet c k v) k' = jsGet c k' := by
  cases c with
  | obj fs =>
    simp only [jsSet, jsGet]
    rw [JValue.lookupStr_setStr_other _ _ _ _ hne]
  | arr xs ps =>
    cases k with
    | idx n =>
      cases k' with
      | idx n' =>
        have hnn : n' ≠ n := fun hh => hne (by rw [hh])
        simp only [jsSet, jsGet]
        exact JValue.setElem_get?_other _ _ _ _ hnn
      | key s' =>
        cases hc : canonIdx s' with
        | some m =>
          have hmn : m ≠ n := by
            intro hh
            apply hne
            show s' = toString n
            rw [← canonIdx_toString s' m hc, hh]
          simp only [jsSet, jsGet, hc]
          exact JValue.setElem_get?_other _ _ _ _ hmn
        | none => simp [jsSet, jsGet, hc]
    | key s =>
      cases hcs : canonIdx s with
      | some n =>
        have hsn : toString n = s := canonIdx_toString s n hcs
        cases k' with
        | idx n' =>
          have hnn : n' ≠ n := by
            intro hh
            apply hne
            show toString n' = s
            rw [hh, hsn]
          simp only [jsSet, jsGet, hcs]
          exact JValue.setElem_get?_other _ _ _ _ hnn
        | key s' =>
          cases hc' : canonIdx s' with
          | some m =>
            have hmn : m ≠ n := by
              intro hh
              apply hne
              show s' = s
              rw [← canonIdx_toString s' m hc', hh, hsn]
            simp only [jsSet, jsGet, hcs, hc']
            exact JValue.setElem_get?_other _ _ _ _ hmn
          | none => simp [jsSet, jsGet, hcs, hc']
      | none =>
        cases k' with
        | idx n' =>
          simp [jsSet, jsGet, hcs]
        | key s' =>
          cases hc' : canonIdx s' with
          | some m => simp [jsSet, jsGet, hcs, hc']
          | none =>
            simp only [jsSet, jsGet, hcs, hc']
            exact congrArg (fun o => Option.getD o JValue.undef)
              (JValue.lookupStr_setStr_other ps s s' v hne)
  | null => exact absurd h (by simp [isContainer])
  | undef => exact absurd h (by simp [isContainer])
  | bool b => exact absurd h (by simp [isContainer])
  | num q => exact absurd h (by simp [isContainer])
  | str s => exact absurd h (by simp [isContainer])

end JsonCrack

namespace JsonCrack

/-! ## Lemmas about `getValueAtPath` -/

theorem getValueAtPath_undef (P : Path) : getValueAtPath .undef P = .undef := by
  cases P <;> rfl

theorem getValueAtPath_cons (v : JValue) (k : Seg) (Q : Path) :
    getValueAtPath v (k :: Q) = getValueAtPath (jsGet v k) Q := by
  cases v with
  | null => rw [show jsGet .null k = .undef from rfl, getValueAtPath_undef]; rfl
  | undef =>
    rw [show jsGet .undef k = .undef from rfl, getValueAtPath_undef]
    rw [getValueAtPath_undef]
  | bool b => rfl
  | num q => rfl
  | str s => rfl
  | arr xs ps => rfl
  | obj fs => rfl

theorem getValueAtPath_append (D : JValue) (P1 P2 : Path) :
    getValueAtPath D (P1 ++ P2) = getValueAtPath (getValueAtPath D P1) P2 := by
  induction P1 generalizing D with
  | nil => rfl
  | cons p P1' ih => rw [List.cons_append, getValueAtPath_cons, getValueAtPath_cons, ih]

/-! ## Read-after-write -/

theorem get_updateSubtree (v' : JValue) (P : Path) (h : P ≠ []) (cs : JValue) :
    getValueAtPath (updateSubtree cs P v') P = v' := by
  induction P generalizing cs with
  | nil => exact absurd rfl h
  | cons k rest ih =>
    cases rest with
    | nil =>
      rw [show updateSubtree cs [k] v' = jsSet (cloneChild cs) k v' from rfl]
      rw [getValueAtPath_cons, jsGet_jsSet_same _ _ _ (isContainer_cloneChild cs)]
      rfl
    | cons q rest' =>
      rw [show updateSubtree cs (k :: q :: rest') v'
          = jsSet (cloneChild cs) k (updateSubtree (jsGetOpt cs k) (q :: rest') v') from rfl]
      rw [getValueAtPath_cons, jsGet_jsSet_same _ _ _ (isContainer_cloneChild cs)]
      exact ih (by simp) _

/-- C1 (read-after-write), claim `C1`. -/
theorem claim_C1 (D : JValue) (P : Path) (v : JValue) (hP : P ≠ [])
    (hanc : ∀ i, i < P.length → isContainer (getValueAtPath D (P.take i)) = true) :
    getValueAtPath (updateValueAtPath D P v) P = v := by
  cases P with
  | nil => exact absurd rfl hP
  | cons k rest =>
    cases rest with
    | nil =>
      rw [show updateValueAtPath D [k] v = jsSet (cloneRoot D) k v from rfl]
      rw [getValueAtPath_cons, jsGet_jsSet_same _ _ _ (isContainer_cloneRoot D)]
      rfl
    | cons q rest' =>
      rw [show updateValueAtPath D (k :: q :: rest') v
          = jsSet (cloneRoot D) k (updateSubtree (jsGetOpt D k) (q :: rest') v) from rfl]
      rw [getValueAtPath_cons, jsGet_jsSet_same _ _ _ (isContainer_cloneRoot D)]
      exact get_updateSubtree v (q :: rest') (by simp) _

/-- C1 witness: a concrete read-after-write instance discharging the
hypotheses of `claim_C1`. -/
theorem claim_C1_witness :
    (([Seg.key "a"] : Path) ≠ []) ∧
    (∀ i, i < ([Seg.key "a"] : Path).length →
      isContainer (getValueAtPath (.obj [("a", .num 1)]) (([Seg.key "a"] : Path).take i)) = true) ∧
    getValueAtPath (updateValueAtPath (.obj [("a", .num 1)]) [Seg.key "a"] (.num 2))
      [Seg.key "a"] = .num 2 :=
  ⟨by decide, by decide, claim_C1 _ _ _ (by decide) (by decide)⟩

/-- C3 (root replacement): `updateValueAtPath` returns the new value
itself when the path is not a proper sequence or is empty — the whole
document is replaced. -/
theorem claim_C3 (D v : JValue) :
    updateValueAtPathArg D .notArray v = v ∧ updateValueAtPathArg D (.path []) v = v :=
  ⟨rfl, rfl⟩

/-- C5 (type-preserving coercion): numeric originals take the parsed
number, falling back to the original on NaN (in particular `42`/`"17"`
gives `17` and `42`/`"abc"` keeps `42`); boolean originals accept the
trimmed lower-cased literals `true`/`false` and keep the original
otherwise; `null` accepts the literal `null` and otherwise the raw text
becomes the value; text originals take the draft verbatim. -/
theorem claim_C5 (n : Rat) (b : Bool) (t s : String) :
    coerceLike (.num n) s = .num ((jsNumber s).getD n) ∧
    coerceLike (.num 42) "17" = .num 17 ∧
    coerceLike (.num 42) "abc" = .num 42 ∧
    coerceLike (.bool b) s = .bool (if jsToLower (jsTrim s) = "true" then true
      else if jsToLower (jsTrim s) = "false" then false else b) ∧
    coerceLike .null s = (if jsToLower (jsTrim s) = "null" then .null else .str s) ∧
    coerceLike (.str t) s = .str s := by
  refine ⟨?_, by decide, by decide, ?_, ?_, rfl⟩
  · cases h : jsNumber s <;> simp [coerceLike, h]
  · by_cases h1 : jsToLower (jsTrim s) = "true" <;>
      by_cases h2 : jsToLower (jsTrim s) = "false" <;> simp [coerceLike, h1, h2]
  · by_cases h1 : jsToLower (jsTrim s) = "null" <;> simp [coerceLike, h1]

/-- C10 (implicit edge case of numeric coercion): an empty or
whitespace-only draft coerces a numeric original to `0`, not back to the
original, because `Number("")` and `Number("   ")` are `0`. -/
theorem claim_C10 (n : Rat) :
    coerceLike (.num n) "" = .num 0 ∧ coerceLike (.num n) "   " = .num 0 := by
  constructor
  · simp [coerceLike, show jsNumber "" = some 0 from by decide]
  · simp [coerceLike, show jsNumber "   " = some 0 from by decide]

/-- C4 (bad-state no-op): when the store's current text — after the
empty-string default to `"{}"` that `updateAtPath` applies first — fails
to deserialize, `updateAtPath` returns the state unchanged (text and
loading flag untouched) and notifies no collaborator; being a total
function, it does not throw. -/
theorem claim_C4 (st : StoreState) (path : Path) (next : JValue)
    (h : jsonParse (if st.json = "" then "{}" else st.json) = none) :
    updateAtPath path next st = (st, []) := by
  show (match jsonParse (if st.json = "" then "{}" else st.json) with
    | none => (st, [])
    | some doc => setJson (jsonStringify (updateValueAtPath doc path next)) st) = (st, [])
  rw [h]

/-- C4 witness: the state holding the text `"\x7bnot json"`. -/
theorem claim_C4_witness :
    jsonParse (if ({ json := "\x7bnot json", loading := true } : StoreState).json = "" then "{}"
      else ({ json := "\x7bnot json", loading := true } : StoreState).json) = none ∧
    updateAtPath [Seg.key "x"] (.num 1) { json := "\x7bnot json", loading := true }
      = ({ json := "\x7bnot json", loading := true }, []) :=
  ⟨by decide, claim_C4 _ _ _ (by decide)⟩

/-- The saving fold of the structured editor never touches the entry of a
key it skips as read-only: invariant threaded through the fold. -/
theorem onSaveFields_color_invariant (current : List (String × JValue))
    (drafts : List (String × String)) :
    ∀ (acc : List (String × JValue)) (c : JValue), JValue.lookupStr acc "color" = some c →
    JValue.lookupStr (drafts.foldl
      (fun acc kd =>
        if READ_ONLY_KEYS kd.1 then acc
        else
          let orig := (JValue.lookupStr current kd.1).getD .undef
          if isPrimitiveField orig then JValue.setStr acc kd.1 (coerceLike orig kd.2) else acc)
      acc) "color" = some c := by
  induction drafts with
  | nil => intro acc c h; exact h
  | cons kd rest ih =>
    intro acc c h
    rw [List.foldl_cons]
    apply ih
    by_cases hro : READ_ONLY_KEYS kd.1
    · simp only [hro, if_pos]
      exact h
    · have hne : "color" ≠ kd.1 := by
        intro hh
        exact hro (by simp [READ_ONLY_KEYS, ← hh])
      by_cases hp : isPrimitiveField ((JValue.lookupStr current kd.1).getD .undef)
      · simp only [hro, Bool.false_eq_true, if_neg, not_false_iff, hp, if_pos]
        rw [JValue.lookupStr_setStr_other _ _ _ _ hne]
        exact h
      · simp only [hro, Bool.false_eq_true, if_neg, not_false_iff, hp]
        exact h

/-- C9 (read-only field preserved): whatever draft text is present, the
structured-mode save commits for the reserved read-only key `"color"`
exactly the value it already had in the sub-value. -/
theorem claim_C9 (current : List (String × JValue)) (drafts : List (String × String))
    (c : JValue) (h : JValue.lookupStr current "color" = some c) :
    JValue.lookupStr (onSaveFields current drafts) "color" = some c :=
  onSaveFields_color_invariant current drafts current c h

/-- C9 witness: a draft for `"color"` is present and ignored. -/
theorem claim_C9_witness :
    JValue.lookupStr [("color", JValue.str "red"), ("x", JValue.num 1)] "color"
      = some (JValue.str "red") ∧
    JValue.lookupStr (onSaveFields [("color", JValue.str "red"), ("x", JValue.num 1)]
      [("color", "blue"), ("x", "2")]) "color" = some (JValue.str "red") :=
  ⟨by decide, claim_C9 _ _ _ (by decide)⟩

/-! ## Clone-shape lemmas -/

theorem lookupStr_strCharEntriesFrom (cs : List Char) :
    ∀ (i : Nat) (t : String) (v : JValue),
    JValue.lookupStr (strCharEntriesFrom i cs) t = some v →
    ∃ c, v = .str (String.singleton c) := by
  induction cs with
  | nil =>
    intro i t v h
    exact absurd h (by simp [strCharEntriesFrom, JValue.lookupStr])
  | cons c rest ih =>
    intro i t v h
    simp only [strCharEntriesFrom, JValue.lookupStr] at h
    by_cases ht : toString i = t
    · rw [if_pos ht] at h
      exact ⟨c, (Option.some.inj h).symm⟩
    · rw [if_neg ht] at h
      exact ih (i + 1) t v h

theorem isContainer_jsGet_str (s : String) (k : Seg) :
    isContainer (jsGet (.str s) k) = false := by
  simp only [jsGet]
  cases h : JValue.lookupStr (strCharEntries s) (segStr k) with
  | none => rfl
  | some v =>
    obtain ⟨c, hc⟩ := lookupStr_strCharEntriesFrom s.toList 0 (segStr k) v h
    subst hc
    rfl

theorem isContainer_jsGetOpt_of_not (cs : JValue) (k : Seg) (h : isContainer cs = false) :
    isContainer (jsGetOpt cs k) = false := by
  cases cs with
  | null => rfl
  | undef => rfl
  | bool b => rfl
  | num q => rfl
  | str s => rw [jsGetOpt_eq_jsGet]; exact isContainer_jsGet_str s k
  | arr xs ps => exact absurd h (by simp [isContainer])
  | obj fs => exact absurd h (by simp [isContainer])

theorem cloneChild_of_not_container (cs : JValue) (h : isContainer cs = false) :
    cloneChild cs = .obj [] := by
  cases cs <;> first | rfl | exact absurd h (by simp [isContainer])

/-- Navigating into a non-container synthesizes an empty map clone and
continues exactly as it would from an empty map. -/
theorem updateSubtree_of_not_container (v : JValue) (rest : Path) :
    ∀ (cs : JValue) (k : Seg), isContainer cs = false →
    updateSubtree cs (k :: rest) v = updateSubtree (.obj []) (k :: rest) v := by
  induction rest with
  | nil =>
    intro cs k h
    rw [show updateSubtree cs [k] v = jsSet (cloneChild cs) k v from rfl,
        cloneChild_of_not_container cs h]
    rfl
  | cons q rest' ih =>
    intro cs k h
    rw [show updateSubtree cs (k :: q :: rest') v
        = jsSet (cloneChild cs) k (updateSubtree (jsGetOpt cs k) (q :: rest') v) from rfl,
        cloneChild_of_not_container cs h]
    rw [show updateSubtree (.obj []) (k :: q :: rest') v
        = jsSet (.obj []) k (updateSubtree (jsGetOpt (.obj []) k) (q :: rest') v) from rfl]
    congr 1
    rw [ih _ _ (isContainer_jsGetOpt_of_not cs k h)]
    rw [show jsGetOpt (JValue.obj []) k = JValue.undef from rfl]
    exact (ih JValue.undef q rfl).symm

theorem cloneRoot_eq_cloneChild (D : JValue) (h : isText D = false) :
    cloneRoot D = cloneChild D := by
  cases D <;> first | rfl | exact absurd h (by simp [isText])

/-- On a non-text root the root clone agrees with the intermediate clone,
so `updateValueAtPath` is the clone-and-descend recursion from the root. -/
theorem updateValueAtPath_eq_updateSubtree (D : JValue) (P : Path) (v : JValue)
    (h : isText D = false) : updateValueAtPath D P v = updateSubtree D P v := by
  cases P with
  | nil => rfl
  | cons k rest =>
    cases rest with
    | nil =>
      rw [show updateValueAtPath D [k] v = jsSet (cloneRoot D) k v from rfl,
          cloneRoot_eq_cloneChild D h]
      rfl
    | cons q rest' =>
      rw [show updateValueAtPath D (k :: q :: rest') v
          = jsSet (cloneRoot D) k (updateSubtree (jsGetOpt D k) (q :: rest') v) from rfl,
          cloneRoot_eq_cloneChild D h]
      rfl

/-- Two roots with the same shallow clone and the same child reads update
identically. -/
theorem update_congr_root (r r' : JValue) (hclone : cloneRoot r = cloneRoot r')
    (hget : ∀ k, jsGetOpt r k = jsGetOpt r' k) (P : Path) (v : JValue) :
    updateValueAtPath r P v = updateValueAtPath r' P v := by
  cases P with
  | nil => rfl
  | cons k rest =>
    cases rest with
    | nil =>
      rw [show updateValueAtPath r [k] v = jsSet (cloneRoot r) k v from rfl,
          show updateValueAtPath r' [k] v = jsSet (cloneRoot r') k v from rfl, hclone]
    | cons q rest' =>
      rw [show updateValueAtPath r (k :: q :: rest') v
          = jsSet (cloneRoot r) k (updateSubtree (jsGetOpt r k) (q :: rest') v) from rfl,
          show updateValueAtPath r' (k :: q :: rest') v
          = jsSet (cloneRoot r') k (updateSubtree (jsGetOpt r' k) (q :: rest') v) from rfl,
          hclone, hget k]

theorem isArr_jsSet_arr (xs : List JValue) (ps : List (String × JValue)) (k : Seg) (v : JValue) :
    isArr (jsSet (.arr xs ps) k v) = true := by
  cases k with
  | idx n => rfl
  | key s =>
    simp only [jsSet]
    cases hc : canonIdx s <;> simp [isArr]

/-- C6 (clone type follows the source), amended: a sequence root updates
to a sequence and a map root to a map; a number, boolean, `null` or
absent root updates exactly as the empty map does; a text root updates
exactly as the map of its character entries does (object spread of a
string copies its characters, not an empty map); and at intermediate
positions every non-container source — text included — is cloned as the
empty map. -/
theorem claim_C6 (P : Path) (v : JValue) (hP : P ≠ []) :
    (∀ xs ps, isArr (updateValueAtPath (.arr xs ps) P v) = true) ∧
    (∀ fs, isObj (updateValueAtPath (.obj fs) P v) = true) ∧
    (∀ r, isLeafNonText r = true → updateValueAtPath r P v = updateValueAtPath (.obj []) P v) ∧
    (∀ s, updateValueAtPath (.str s) P v = updateValueAtPath (.obj (strCharEntries s)) P v) ∧
    (∀ cs k rest, isContainer cs = false →
      updateSubtree cs (k :: rest) v = updateSubtree (.obj []) (k :: rest) v) := by
  refine ⟨?_, ?_, ?_, ?_, fun cs k rest h => updateSubtree_of_not_container v rest cs k h⟩
  · intro xs ps
    cases P with
    | nil => exact absurd rfl hP
    | cons k rest =>
      cases rest with
      | nil => exact isArr_jsSet_arr xs [] k v
      | cons q rest' => exact isArr_jsSet_arr xs [] k _
  · intro fs
    cases P with
    | nil => exact absurd rfl hP
    | cons k rest =>
      cases rest with
      | nil => rfl
      | cons q rest' => rfl
  · intro r hr
    cases r with
    | null => exact update_congr_root _ _ rfl (fun k => rfl) P v
    | undef => exact update_congr_root _ _ rfl (fun k => rfl) P v
    | bool b => exact update_congr_root _ _ rfl (fun k => rfl) P v
    | num q => exact update_congr_root _ _ rfl (fun k => rfl) P v
    | str s => exact absurd hr (by simp [isLeafNonText])
    | arr xs ps => exact absurd hr (by simp [isLeafNonText])
    | obj fs => exact absurd hr (by simp [isLeafNonText])
  · intro s
    exact update_congr_root _ _ rfl (fun k => rfl) P v

/-- C6 counterexample: the claim as stated fails on a text root — `"ab"`
is a non-container, yet its update is built from the two-entry character
map `{0:"a",1:"b"}`, not from the empty map. -/
theorem claim_C6_counterexample :
    isContainer (JValue.str "ab") = false ∧
    updateValueAtPath (JValue.str "ab") [Seg.key "x"] (JValue.num 5)
      ≠ updateValueAtPath (JValue.obj []) [Seg.key "x"] (JValue.num 5) ∧
    updateValueAtPath (JValue.str "ab") [Seg.key "x"] (JValue.num 5)
      = JValue.obj [("0", JValue.str "a"), ("1", JValue.str "b"), ("x", JValue.num 5)] :=
  ⟨by decide, by decide, by decide⟩

/-- C6 witness: a boolean root updates exactly as the empty map does. -/
theorem claim_C6_witness :
    (([Seg.key "x"] : Path) ≠ []) ∧ isLeafNonText (JValue.bool true) = true ∧
    updateValueAtPath (JValue.bool true) [Seg.key "x"] (JValue.num 5)
      = updateValueAtPath (JValue.obj []) [Seg.key "x"] (JValue.num 5) :=
  ⟨by decide, by decide,
    (claim_C6 [Seg.key "x"] (JValue.num 5) (by decide)).2.2.1 (JValue.bool true) (by decide)⟩

/-- C7 (extension): an intermediate step addressing a `null`/absent
position does not fail — an empty map is synthesized there and navigation
continues; in particular `update({}, ["a","b"], 5)` yields
`{a: {b: 5}}`. -/
theorem claim_C7 (D cs : JValue) (p q : Seg) (rest : Path) (v : JValue)
    (hD : jsGetOpt D p = .null ∨ jsGetOpt D p = .undef)
    (hcs : cs = .null ∨ cs = .undef) :
    updateValueAtPath D (p :: q :: rest) v =
      jsSet (cloneRoot D) p (updateValueAtPath (.obj []) (q :: rest) v) ∧
    updateSubtree cs (q :: rest) v = updateSubtree (.obj []) (q :: rest) v ∧
    updateValueAtPath (.obj []) [.key "a", .key "b"] (.num 5)
      = .obj [("a", .obj [("b", .num 5)])] := by
  have hsub : ∀ w : JValue, w = .null ∨ w = .undef →
      updateSubtree w (q :: rest) v = updateSubtree (.obj []) (q :: rest) v := by
    intro w hw
    have hnc : isContainer w = false := by rcases hw with h | h <;> subst h <;> rfl
    exact updateSubtree_of_not_container v rest w q hnc
  refine ⟨?_, hsub cs hcs, by decide⟩
  rw [show updateValueAtPath D (p :: q :: rest) v
      = jsSet (cloneRoot D) p (updateSubtree (jsGetOpt D p) (q :: rest) v) from rfl]
  congr 1
  rw [hsub _ hD]
  exact (updateValueAtPath_eq_updateSubtree (.obj []) (q :: rest) v rfl).symm

/-- C7 witness: extending the empty document along `["a","b"]`. -/
theorem claim_C7_witness :
    (jsGetOpt (JValue.obj []) (Seg.key "a") = JValue.null ∨
      jsGetOpt (JValue.obj []) (Seg.key "a") = JValue.undef) ∧
    ((JValue.null : JValue) = JValue.null ∨ (JValue.null : JValue) = JValue.undef) ∧
    updateValueAtPath (JValue.obj []) [Seg.key "a", Seg.key "b"] (JValue.num 5) =
      jsSet (cloneRoot (JValue.obj [])) (Seg.key "a")
        (updateValueAtPath (JValue.obj []) [Seg.key "b"] (JValue.num 5)) :=
  ⟨by decide, by decide,
    (claim_C7 (JValue.obj []) JValue.null (Seg.key "a") (Seg.key "b") [] (JValue.num 5)
      (by decide) (by decide)).1⟩

/-- C8 (absence safety): `getValueAtPath` is a total function — it never
raises — and represents absence as the normal result `undefined`: a path
continuing past a `null`/absent node yields `undefined`, and an index
read off the end of a sequence yields `undefined`. -/
theorem claim_C8 (D : JValue) (P1 P2 P3 : Path) (xs : List JValue)
    (ps : List (String × JValue)) (n : Nat)
    (h1 : getValueAtPath D P1 = .null ∨ getValueAtPath D P1 = .undef)
    (h2 : P2 ≠ [])
    (h3 : xs.length ≤ n) :
    getValueAtPath D (P1 ++ P2) = .undef ∧
    getValueAtPath (.arr xs ps) (.idx n :: P3) = .undef := by
  constructor
  · rw [getValueAtPath_append]
    cases P2 with
    | nil => exact absurd rfl h2
    | cons p rest => rcases h1 with h | h <;> rw [h] <;> rfl
  · rw [getValueAtPath_cons]
    have hj : jsGet (.arr xs ps) (.idx n) = .undef := by
      have hg : xs[n]? = none := by
        rw [← List.get?_eq_getElem?]
        exact List.get?_eq_none.2 h3
      simp [jsGet, hg]
    rw [hj, getValueAtPath_undef]

/-- C8 witness: a path through a `null` node and a read off the end of an
empty sequence. -/
theorem claim_C8_witness :
    (getValueAtPath (JValue.obj [("a", JValue.null)]) [Seg.key "a"] = JValue.null ∨
      getValueAtPath (JValue.obj [("a", JValue.null)]) [Seg.key "a"] = JValue.undef) ∧
    (([Seg.key "b"] : Path) ≠ []) ∧ (List.length ([] : List JValue) ≤ 0) ∧
    (getValueAtPath (JValue.obj [("a", JValue.null)]) ([Seg.key "a"] ++ [Seg.key "b"])
        = JValue.undef ∧
      getValueAtPath (JValue.arr [] []) (Seg.idx 0 :: []) = JValue.undef) :=
  ⟨by decide, by decide, by decide,
    claim_C8 (JValue.obj [("a", JValue.null)]) [Seg.key "a"] [Seg.key "b"] [] [] [] 0
      (by decide) (by decide) (by decide)⟩

/-! ## Structural sharing (frame) lemmas -/

theorem propsFree_of_lookup (fs : List (String × JValue)) (s : String) (v : JValue)
    (h : propsFreeFields fs = true) (hl : JValue.lookupStr fs s = some v) :
    propsFree v = true := by
  induction fs with
  | nil => exact absurd hl (by simp [JValue.lookupStr])
  | cons kv rest ih =>
    obtain ⟨k2, w⟩ := kv
    simp only [propsFreeFields, Bool.and_eq_true] at h
    simp only [JValue.lookupStr] at hl
    by_cases hk : k2 = s
    · rw [if_pos hk] at hl
      exact (Option.some.inj hl) ▸ h.1
    · rw [if_neg hk] at hl
      exact ih h.2 hl

theorem propsFree_of_getElem? (xs : List JValue) (n : Nat) (v : JValue)
    (h : propsFreeList xs = true) (hE : xs[n]? = some v) : propsFree v = true := by
  induction xs generalizing n with
  | nil => exact absurd hE (by simp)
  | cons x rest ih =>
    simp only [propsFreeList, Bool.and_eq_true] at h
    cases n with
    | zero =>
      simp only [List.getElem?_cons_zero, Option.some.injEq] at hE
      exact hE ▸ h.1
    | succ m =>
      simp only [List.getElem?_cons_succ] at hE
      exact ih m h.2 hE

theorem isEmpty_eq_nil (ps : List (String × JValue)) (h : ps.isEmpty = true) : ps = [] := by
  cases ps with
  | nil => rfl
  | cons a b => simp [List.isEmpty] at h

theorem propsFree_jsGet (w : JValue) (k : Seg) (h : propsFree w = true) :
    propsFree (jsGet w k) = true := by
  cases w with
  | obj fs =>
    simp only [jsGet]
    cases hl : JValue.lookupStr fs (segStr k) with
    | none => rfl
    | some v => exact propsFree_of_lookup fs (segStr k) v h hl
  | arr xs ps =>
    simp only [propsFree, Bool.and_eq_true] at h
    have hps : ps = [] := isEmpty_eq_nil ps h.1
    subst hps
    cases k with
    | idx n =>
      simp only [jsGet, ← List.get?_eq_getElem?]
      cases hE : xs.get? n with
      | none => rfl
      | some v =>
        exact propsFree_of_getElem? xs n v h.2 (by rw [← List.get?_eq_getElem?]; exact hE)
    | key s =>
      cases hc : canonIdx s with
      | some m =>
        simp only [jsGet, hc, ← List.get?_eq_getElem?]
        cases hE : xs.get? m with
        | none => rfl
        | some v =>
          exact propsFree_of_getElem? xs m v h.2 (by rw [← List.get?_eq_getElem?]; exact hE)
      | none =>
        simp only [jsGet, hc]
        rfl
  | str s =>
    simp only [jsGet]
    cases hl : JValue.lookupStr (strCharEntries s) (segStr k) with
    | none => rfl
    | some v =>
      obtain ⟨c, hc⟩ := lookupStr_strCharEntriesFrom s.toList 0 (segStr k) v hl
      subst hc
      rfl
  | null => rfl
  | undef => rfl
  | bool b => rfl
  | num q => rfl

mutual
theorem propsFree_of_isDocument (w : JValue) (h : isDocument w = true) :
    propsFree w = true := by
  cases w with
  | arr xs ps =>
    simp only [isDocument, Bool.and_eq_true] at h
    simp only [propsFree, Bool.and_eq_true]
    exact ⟨h.1, propsFree_of_isDocumentList xs h.2⟩
  | obj fs => exact propsFree_of_isDocumentFields fs h
  | null => rfl
  | undef => rfl
  | bool b => rfl
  | num q => rfl
  | str s => rfl

theorem propsFree_of_isDocumentList (xs : List JValue) (h : isDocumentList xs = true) :
    propsFreeList xs = true := by
  cases xs with
  | nil => rfl
  | cons x rest =>
    simp only [isDocumentList, Bool.and_eq_true] at h
    simp only [propsFreeList, Bool.and_eq_true]
    exact ⟨propsFree_of_isDocument x h.1, propsFree_of_isDocumentList rest h.2⟩

theorem propsFree_of_isDocumentFields (fs : List (String × JValue))
    (h : isDocumentFields fs = true) : propsFreeFields fs = true := by
  cases fs with
  | nil => rfl
  | cons kv rest =>
    obtain ⟨k2, w⟩ := kv
    simp only [isDocumentFields, Bool.and_eq_true] at h
    simp only [propsFreeFields, Bool.and_eq_true]
    exact ⟨propsFree_of_isDocument w h.1, propsFree_of_isDocumentFields rest h.2⟩
end

/-- Reading any entry other than the one being written, through the
shallow clone of a props-free non-text source, sees exactly the source's
entry. -/
theorem jsGet_frame_step (cs : JValue) (p k : Seg) (X : JValue)
    (hpf : propsFree cs = true) (htext : isText cs = false)
    (hne : segStr k ≠ segStr p) :
    jsGet (jsSet (cloneChild cs) p X) k = jsGet cs k := by
  cases cs with
  | obj fs => exact jsGet_jsSet_other (JValue.obj fs) p k X rfl hne
  | arr xs ps =>
    simp only [propsFree, Bool.and_eq_true] at hpf
    have hps : ps = [] := isEmpty_eq_nil ps hpf.1
    subst hps
    exact jsGet_jsSet_other (JValue.arr xs []) p k X rfl hne
  | str s => exact absurd htext (by simp [isText])
  | null =>
    have hpk : ¬ (segStr p = segStr k) := fun hh => hne hh.symm
    simp [jsSet, jsGet, JValue.setStr, JValue.lookupStr, hpk, cloneChild]
  | undef =>
    have hpk : ¬ (segStr p = segStr k) := fun hh => hne hh.symm
    simp [jsSet, jsGet, JValue.setStr, JValue.lookupStr, hpk, cloneChild]
  | bool b =>
    have hpk : ¬ (segStr p = segStr k) := fun hh => hne hh.symm
    simp [jsSet, jsGet, JValue.setStr, JValue.lookupStr, hpk, cloneChild]
  | num q =>
    have hpk : ¬ (segStr p = segStr k) := fun hh => hne hh.symm
    simp [jsSet, jsGet, JValue.setStr, JValue.lookupStr, hpk, cloneChild]

/-- The frame property of the clone-and-descend recursion: a read that
leaves the written path at step `i` (through an entry other than the one
the path takes there) sees the source document unchanged, provided no
node on the path is a text leaf and the source is props-free. -/
theorem frame_updateSubtree (v : JValue) (P : Path) :
    ∀ (cs : JValue), propsFree cs = true →
    (∀ j, j < P.length → isText (getValueAtPath cs (P.take j)) = false) →
    ∀ (i : Nat) (hi : i < P.length) (k : Seg) (rest : Path),
    segStr k ≠ segStr (P.get ⟨i, hi⟩) →
    getValueAtPath (updateSubtree cs P v) (P.take i ++ k :: rest) =
      getValueAtPath cs (P.take i ++ k :: rest) := by
  induction P with
  | nil =>
    intro cs _ _ i hi
    exact absurd hi (by simp)
  | cons p P' ih =>
    intro cs hpf htext i hi k rest hk
    have hcsText : isText cs = false := by
      have h0 := htext 0 (by simp)
      simpa using h0
    cases i with
    | zero =>
      have hstep : ∀ X, getValueAtPath (jsSet (cloneChild cs) p X) (k :: rest)
          = getValueAtPath cs (k :: rest) := by
        intro X
        rw [getValueAtPath_cons, getValueAtPath_cons,
            jsGet_frame_step cs p k X hpf hcsText hk]
      cases P' with
      | nil => exact hstep v
      | cons q P'' => exact hstep _
    | succ j =>
      have hj : j < P'.length := by simpa using hi
      cases P' with
      | nil => exact absurd hj (by simp)
      | cons q P'' =>
        show getValueAtPath
            (jsSet (cloneChild cs) p (updateSubtree (jsGetOpt cs p) (q :: P'') v))
            (p :: ((q :: P'').take j ++ k :: rest))
          = getValueAtPath cs (p :: ((q :: P'').take j ++ k :: rest))
        rw [getValueAtPath_cons, getValueAtPath_cons,
            jsGet_jsSet_same _ _ _ (isContainer_cloneChild cs)]
        rw [← jsGetOpt_eq_jsGet cs p]
        refine ih (jsGetOpt cs p) ?_ ?_ j hj k rest ?_
        · rw [jsGetOpt_eq_jsGet]
          exact propsFree_jsGet cs p hpf
        · intro j' hj'
          have hstep := htext (j' + 1) (by simpa using hj')
          rw [show ((p :: q :: P'').take (j' + 1)) = p :: ((q :: P'').take j') from rfl] at hstep
          rw [getValueAtPath_cons] at hstep
          rw [jsGetOpt_eq_jsGet]
          exact hstep
        · exact hk

/-- C2 (structural sharing / frame property), amended: for a document
root, a read that deviates from the written path before its end — at step
`i` through an entry whose property key differs from the path's — is
unchanged by the update, provided no node on the root-to-path chain is a
text leaf.  (A text node on the chain is cloned as a map — the character
map at the root, the empty map at intermediate positions — so its
character entries are not preserved.) -/
theorem claim_C2 (D : JValue) (P : Path) (v : JValue) (i : Nat) (k : Seg) (rest : Path)
    (hdoc : isDocument D = true)
    (htext : ∀ j, j < P.length → isText (getValueAtPath D (P.take j)) = false)
    (hi : i < P.length)
    (hk : segStr k ≠ segStr (P.get ⟨i, hi⟩)) :
    getValueAtPath (updateValueAtPath D P v) (P.take i ++ k :: rest) =
      getValueAtPath D (P.take i ++ k :: rest) := by
  have hDtext : isText D = false := by
    have h0 := htext 0 (Nat.lt_of_le_of_lt (Nat.zero_le i) hi)
    simpa using h0
  rw [updateValueAtPath_eq_updateSubtree D P v hDtext]
  exact frame_updateSubtree v P D (propsFree_of_isDocument D hdoc) htext i hi k rest hk

/-- C2 counterexample: the claim as stated fails when the path runs
through a text leaf.  With `D = {a: "xy"}` and `P = ["a","b"]`, the
subtree read `["a","0"]` deviates from `P` at its second step (`"0"` is
not `"b"`), yet it reads `"x"` in `D` and `undefined` in the update — the
text node on the path was replaced by an empty-map clone, not shared. -/
theorem claim_C2_counterexample :
    isDocument (JValue.obj [("a", JValue.str "xy")]) = true ∧
    segStr (Seg.key "0") ≠ segStr (Seg.key "b") ∧
    getValueAtPath (JValue.obj [("a", JValue.str "xy")]) [Seg.key "a", Seg.key "0"]
      = JValue.str "x" ∧
    getValueAtPath
        (updateValueAtPath (JValue.obj [("a", JValue.str "xy")]) [Seg.key "a", Seg.key "b"]
          (JValue.num 1))
        [Seg.key "a", Seg.key "0"]
      ≠ getValueAtPath (JValue.obj [("a", JValue.str "xy")]) [Seg.key "a", Seg.key "0"] :=
  ⟨by decide, by decide, by decide, by decide⟩

/-- C2 witness: the untouched sibling entry `"c"` reads the same before
and after the update. -/
theorem claim_C2_witness :
    isDocument (JValue.obj [("a", JValue.obj [("b", JValue.num 1), ("c", JValue.str "x")])])
      = true ∧
    (∀ j, j < ([Seg.key "a", Seg.key "b"] : Path).length →
      isText (getValueAtPath
        (JValue.obj [("a", JValue.obj [("b", JValue.num 1), ("c", JValue.str "x")])])
        (([Seg.key "a", Seg.key "b"] : Path).take j)) = false) ∧
    segStr (Seg.key "c") ≠ segStr (([Seg.key "a", Seg.key "b"] : Path).get ⟨1, by decide⟩) ∧
    getValueAtPath
        (updateValueAtPath
          (JValue.obj [("a", JValue.obj [("b", JValue.num 1), ("c", JValue.str "x")])])
          [Seg.key "a", Seg.key "b"] (JValue.num 2))
        (([Seg.key "a", Seg.key "b"] : Path).take 1 ++ Seg.key "c" :: []) =
      getValueAtPath
        (JValue.obj [("a", JValue.obj [("b", JValue.num 1), ("c", JValue.str "x")])])
        (([Seg.key "a", Seg.key "b"] : Path).take 1 ++ Seg.key "c" :: []) :=
  ⟨by decide, by decide, by decide,
    claim_C2 _ [Seg.key "a", Seg.key "b"] (JValue.num 2) 1 (Seg.key "c") []
      (by decide) (by decide) (by decide) (by decide)⟩

end JsonCrack
